import Mathlib

/-!
Shallow embedding of the joyride docker-cluster CoreDNS plugin
(record store with LWW metadata, cluster merge, DNS handler, docker
label extraction), together with theorems about its behaviour.

Sources embedded:
  * plugins/docker-cluster/records.go   (Records store and LWW operations)
  * plugins/docker-cluster/docker_cluster.go  (ServeDNS / handleUnknown)
  * cluster delegate MergeRemoteState (full-state anti-entropy merge)
  * plugin/docker_watcher.go extractHostnames (label parsing)

Go maps are modelled as functions `String → Option _`; Go's
byte-wise string comparison as Lean's `String` order (UTF-8 byte order
and code-point order agree); Go `int64` timestamps as `Int` (only
compared, never arithmetically combined, so overflow cannot occur).
The Go string helpers (`strings.ToLower`, `strings.Split`,
`strings.TrimSpace`, `strings.TrimSuffix`) are given structural
implementations over the character list so that the kernel can
evaluate them on concrete inputs.
-/

namespace Joyride

/-- Go's `strings.ToLower`, for the ASCII hostnames this system
handles (`Char.toLower` lowercases exactly `'A'`-`'Z'`). -/
def goLower (s : String) : String :=
  ⟨s.data.map Char.toLower⟩

/-- Helper for `splitOnChar`: accumulates the current field in reverse. -/
def splitOnCharAux (sep : Char) : List Char → List Char → List String
  | [], acc => [⟨acc.reverse⟩]
  | c :: cs, acc =>
    if c = sep then ⟨acc.reverse⟩ :: splitOnCharAux sep cs []
    else splitOnCharAux sep cs (c :: acc)

/-- Go's `strings.Split(s, sep)` for a one-character separator:
`n-1` separators yield `n` fields, empty fields kept, and the empty
string yields one empty field. -/
def splitOnChar (sep : Char) (s : String) : List String :=
  splitOnCharAux sep s.data []

/-- Go's `strings.TrimSpace`: drop leading and trailing whitespace. -/
def goTrim (s : String) : String :=
  ⟨((s.data.dropWhile Char.isWhitespace).reverse.dropWhile Char.isWhitespace).reverse⟩

/-- Metadata stored for a DNS record, used for LWW conflict resolution.
Mirrors `RecordMeta` in records.go. -/
structure RecordMeta where
  timestamp : Int
  nodeID : String
  deriving DecidableEq, Repr

/-- The record store: the `data` map (`hostname → ip`) and the `meta`
map (`hostname → RecordMeta`) of `Records` in records.go.  Each Go map
is modelled as a function to `Option`. -/
@[ext] structure Records where
  data : String → Option String
  meta : String → Option RecordMeta

/-- `NewRecords`: both maps empty. -/
def newRecords : Records :=
  { data := fun _ => none, meta := fun _ => none }

/-- `Records.Add`: unconditional add of `hostname → ip` (hostname
lowercased); the meta map is not touched (records.go lines 47-65). -/
def Records.add (r : Records) (hostname ip : String) : Records :=
  { data := fun k => if k = goLower hostname then some ip else r.data k,
    meta := r.meta }

/-- `Records.Remove`: unconditional removal; no-op when the (lowercased)
hostname is absent from the data map (records.go lines 71-95). -/
def Records.remove (r : Records) (hostname : String) : Records :=
  match r.data (goLower hostname) with
  | none => r
  | some _ =>
    { data := fun k => if k = goLower hostname then none else r.data k,
      meta := r.meta }

/-- `Records.Lookup`: case-insensitive read of the data map. -/
def Records.lookup (r : Records) (hostname : String) : Option String :=
  r.data (goLower hostname)

/-- `Records.GetMeta`: case-insensitive read of the meta map. -/
def Records.getMeta (r : Records) (hostname : String) : Option RecordMeta :=
  r.meta (goLower hostname)

/-- The LWW rejection test shared by `AddWithMeta` and `RemoveWithMeta`
(records.go lines 140-147 and 197-204): an existing record rejects an
incoming `(timestamp, nodeID)` when `existing.Timestamp > timestamp`,
or the timestamps are equal and `existing.NodeID >= nodeID`. -/
def lwwRejects (existing : RecordMeta) (timestamp : Int) (nodeID : String) : Bool :=
  decide (existing.timestamp > timestamp) ||
    (decide (existing.timestamp = timestamp) && !decide (existing.nodeID < nodeID))

/-- The store after writing `goLower hostname → ip` into the data map
and `goLower hostname → {timestamp, nodeID}` into the meta map (the
copy-and-insert step of `AddWithMeta`). -/
def Records.withEntry (r : Records) (hostname ip : String)
    (timestamp : Int) (nodeID : String) : Records :=
  { data := fun k => if k = goLower hostname then some ip else r.data k,
    meta := fun k => if k = goLower hostname then some ⟨timestamp, nodeID⟩ else r.meta k }

/-- The store after deleting `goLower hostname` from both maps (the
copy-and-delete step of `RemoveWithMeta`). -/
def Records.withoutEntry (r : Records) (hostname : String) : Records :=
  { data := fun k => if k = goLower hostname then none else r.data k,
    meta := fun k => if k = goLower hostname then none else r.meta k }

/-- `Records.AddWithMeta` (records.go lines 130-174): LWW-guarded add.
Returns `true` and the updated store when the write wins, `false` and
the unchanged store when an existing record is newer. -/
def Records.addWithMeta (r : Records) (hostname ip : String)
    (timestamp : Int) (nodeID : String) : Bool × Records :=
  match r.meta (goLower hostname) with
  | some existing =>
    if lwwRejects existing timestamp nodeID then (false, r)
    else (true, r.withEntry hostname ip timestamp nodeID)
  | none => (true, r.withEntry hostname ip timestamp nodeID)

/-- `Records.RemoveWithMeta` (records.go lines 179-227): LWW-guarded
remove.  Returns `false` (store untouched) when the hostname is absent
from the data map or an existing record is newer. -/
def Records.removeWithMeta (r : Records) (hostname : String)
    (timestamp : Int) (nodeID : String) : Bool × Records :=
  match r.data (goLower hostname) with
  | none => (false, r)
  | some _ =>
    match r.meta (goLower hostname) with
    | some existing =>
      if lwwRejects existing timestamp nodeID then (false, r)
      else (true, r.withoutEntry hostname)
    | none => (true, r.withoutEntry hostname)

/-- `RecordAction` (uint8 in Go).  All values other than `add` (0) and
`remove` (1) hit `ApplyMessage`'s default branch, so they are collapsed
into one constructor. -/
inductive RecordAction where
  | add
  | remove
  | unknown
  deriving DecidableEq, Repr

/-- `RecordMessage`: a gossiped delta. -/
structure RecordMessage where
  hostname : String
  ip : String
  action : RecordAction
  timestamp : Int
  nodeID : String
  deriving Repr

/-- `Records.ApplyMessage` (records.go lines 249-258): dispatch the
delta to `AddWithMeta` / `RemoveWithMeta`; unknown actions are rejected. -/
def Records.applyMessage (r : Records) (msg : RecordMessage) : Bool × Records :=
  match msg.action with
  | .add => r.addWithMeta msg.hostname msg.ip msg.timestamp msg.nodeID
  | .remove => r.removeWithMeta msg.hostname msg.timestamp msg.nodeID
  | .unknown => (false, r)

/-- A full-state snapshot entry (`RecordEntry` in the gossip codec). -/
structure RecordEntry where
  ip : String
  timestamp : Int
  nodeID : String
  deriving DecidableEq, Repr

/-- The delta built from one snapshot entry by `MergeRemoteState`. -/
def entryMessage (p : String × RecordEntry) : RecordMessage :=
  { hostname := p.1, ip := p.2.ip, action := .add,
    timestamp := p.2.timestamp, nodeID := p.2.nodeID }

/-- `ClusterDelegate.MergeRemoteState` (delegate source, lines 94-115):
apply every snapshot entry as an `add` delta under LWW.  The decoded Go
map is modelled as an association list with distinct keys. -/
def mergeRemoteState (r : Records) (entries : List (String × RecordEntry)) : Records :=
  entries.foldl (fun acc p => (acc.applyMessage (entryMessage p)).2) r

/-! ## DNS handler (docker_cluster.go) -/

/-- Query type.  `ServeDNS` only distinguishes A, AAAA and "everything
else", so the remaining qtypes are collapsed into one constructor. -/
inductive QType where
  | a
  | aaaa
  | other
  deriving DecidableEq, Repr

/-- `UnknownAction` (docker_cluster.go lines 20-27): what to do when a
hostname is not found.  `handleUnknown` treats every value other than
`ActionNXDomain` as drop, so the two constructors are exhaustive. -/
inductive UnknownAction where
  | drop
  | nxdomain
  deriving DecidableEq, Repr

/-- Response code: the constants of the dns library that the handler
uses (`RcodeSuccess`, `RcodeNameError`, `RcodeServerFailure`). -/
inductive Rcode where
  | success
  | nameError
  | serverFailure
  deriving DecidableEq, Repr

/-- One A answer record: owner name, the address produced by
`net.ParseIP(ip).To4()` (`none` models a nil IP), and the TTL. -/
structure DnsAnswer where
  name : String
  addr : Option (Nat × Nat × Nat × Nat)
  ttl : Nat
  deriving DecidableEq, Repr

/-- A DNS message as written by the handler: response code,
authoritative bit, answer section. -/
structure DnsMsg where
  rcode : Rcode
  authoritative : Bool
  answers : List DnsAnswer
  deriving DecidableEq, Repr

/-- Outcome of one `ServeDNS` call: the list of messages written to the
response writer plus the returned code, or delegation to the next
handler (`plugin.NextOrFailure` with a next handler present), or the
server-failure return of `plugin.NextOrFailure` when no next handler
exists. -/
inductive HandlerOutcome where
  | done (written : List DnsMsg) (code : Rcode)
  | delegated
  | failedNoNext
  deriving DecidableEq, Repr

/-- The handler's configuration and state (`DockerCluster` struct):
the record store, the TTL, the fall-through predicate (`fall.F.Through`
applied to the query name), whether a next plugin is configured, and
the unknown-action policy. -/
structure DockerCluster where
  records : Records
  ttl : Nat
  fallThrough : String → Bool
  hasNext : Bool
  unknownAction : UnknownAction

/-- A DNS query: the wire question name (fully qualified, trailing dot)
and its qtype. -/
structure DnsQuery where
  name : String
  qtype : QType

/-- Go's `strings.TrimSuffix(s, ".")`: drop one trailing dot if present. -/
def trimDot (s : String) : String :=
  if s.data.getLast? = some '.' then ⟨s.data.dropLast⟩ else s

/-- Models `net.ParseIP(s).To4()` for the strings this system stores:
an IPv4 dotted quad parses to its four octets (each 0-255, one to three
digits, no leading zero, per Go's post-1.17 `ParseIP`); everything else
- including textual IPv6 such as `"::1"`, whose `To4()` is nil — yields
`none`. -/
def parseOctet (s : String) : Option Nat :=
  let cs := s.data
  if cs.length = 0 ∨ 3 < cs.length then none
  else if 1 < cs.length ∧ cs.head? = some '0' then none
  else if cs.all Char.isDigit then
    let n := cs.foldl (fun acc c => acc * 10 + (c.toNat - '0'.toNat)) 0
    if n ≤ 255 then some n else none
  else none

/-- See `parseOctet`: the four-octet dotted-quad parse. -/
def parseIPv4 (s : String) : Option (Nat × Nat × Nat × Nat) :=
  match (splitOnChar '.' s).map parseOctet with
  | [some a, some b, some c, some d] => some (a, b, c, d)
  | _ => none

/-- `handleUnknown` (docker_cluster.go lines 96-117): fall-through to
the next plugin when the predicate matches the query name, otherwise
apply the configured unknown action.  `stateName` is `request.Name()`:
the lowercased, fully-qualified query name. -/
def handleUnknown (dc : DockerCluster) (stateName : String) : HandlerOutcome :=
  if dc.fallThrough stateName then
    if dc.hasNext then .delegated else .failedNoNext
  else
    match dc.unknownAction with
    | .nxdomain => .done [{ rcode := .nameError, authoritative := false, answers := [] }] .nameError
    | .drop => .done [] .success

/-- `ServeDNS` (docker_cluster.go lines 47-93).  `request.Name()` is
the lowercased wire name; the lookup key additionally drops the
trailing dot.  A known AAAA gets an empty reply; non-A qtypes and
misses go to `handleUnknown`; a hit builds one A answer carrying
`net.ParseIP(ip).To4()` (unvalidated) under the original-case query
name (`request.QName()`). -/
def serveDNS (dc : DockerCluster) (q : DnsQuery) : HandlerOutcome :=
  let stateName := goLower q.name
  let qname := trimDot stateName
  let res := dc.records.lookup qname
  if q.qtype = QType.aaaa ∧ res.isSome then
    .done [{ rcode := .success, authoritative := false, answers := [] }] .success
  else if q.qtype ≠ QType.a then
    handleUnknown dc stateName
  else
    match res with
    | none => handleUnknown dc stateName
    | some ip =>
      .done [{ rcode := .success, authoritative := true,
               answers := [{ name := q.name, addr := parseIPv4 ip, ttl := dc.ttl }] }] .success

/-! ## Label extraction (docker_watcher.go) -/

/-- The inner loop body of `extractHostnames`: trim the token and
append it when it is non-blank and unseen (the Go `seen` set always
holds exactly the elements of the accumulated slice, so membership in
the accumulator models it). -/
def hostTokenStep (acc2 : List String) (part : String) : List String :=
  let hostname := goTrim part
  if hostname ≠ "" ∧ hostname ∉ acc2 then acc2 ++ [hostname] else acc2

/-- The outer loop body of `extractHostnames`: when the container
carries the label, split its value on commas and fold the tokens. -/
def labelStep (labels : String → Option String)
    (acc : List String) (labelName : String) : List String :=
  match labels labelName with
  | none => acc
  | some value => (splitOnChar ',' value).foldl hostTokenStep acc

/-- `DockerWatcher.extractHostnames` (docker_watcher.go lines 400-418):
for each configured label present on the container, split its value on
commas, trim each token, and collect tokens that are non-blank and not
yet seen. -/
def extractHostnames (cfgLabels : List String)
    (labels : String → Option String) : List String :=
  cfgLabels.foldl (labelStep labels) []

/-- The strict lexicographic order on `(timestamp, origin_node)` pairs
used by the spec: greater timestamp wins, ties broken by greater node id. -/
def lwwLt (t1 : Int) (n1 : String) (t2 : Int) (n2 : String) : Prop :=
  t1 < t2 ∨ (t1 = t2 ∧ n1 < n2)

instance (t1 : Int) (n1 : String) (t2 : Int) (n2 : String) :
    Decidable (lwwLt t1 n1 t2 n2) := by
  unfold lwwLt; infer_instance

/-- The label map of the spec's two-label example container:
`label1=x.example`, `label2=x.example,y.example`. -/
def exampleLabels : String → Option String := fun l =>
  if l = "label1" then some "x.example"
  else if l = "label2" then some "x.example,y.example"
  else none

/-- A concrete store for the merge witness: one record for
`keep.example` stamped `(10, "zz")`. -/
def mergeWitnessStore : Records :=
  (newRecords.addWithMeta "keep.example" "1.1.1.1" 10 "zz").2

/-- A concrete snapshot for the merge witness: a stale entry for
`keep.example` and a fresh entry for `new.example`. -/
def mergeWitnessEntries : List (String × RecordEntry) :=
  [("keep.example", { ip := "9.9.9.9", timestamp := 5, nodeID := "aa" }),
   ("new.example", { ip := "3.3.3.3", timestamp := 7, nodeID := "bb" })]

/-- A concrete handler configuration in drop mode with no fall-through,
used by witnesses. -/
def dropConfig : DockerCluster :=
  { records := newRecords, ttl := 60, fallThrough := fun _ => false,
    hasNext := false, unknownAction := .drop }

/-- A concrete handler configuration whose fall-through predicate
always matches and which has a next handler, used by witnesses. -/
def fallConfig : DockerCluster :=
  { records := newRecords, ttl := 60, fallThrough := fun _ => true,
    hasNext := true, unknownAction := .drop }

end Joyride

namespace Joyride

/-! ## LWW order lemmas -/

theorem lwwRejects_false_iff (ex : RecordMeta) (ts : Int) (n : String) :
    lwwRejects ex ts n = false ↔ lwwLt ex.timestamp ex.nodeID ts n := by
  unfold lwwRejects lwwLt
  rcases lt_trichotomy ex.timestamp ts with h | h | h
  · simp [h, ne_of_lt h, lt_asymm h]
  · subst h
    by_cases h3 : ex.nodeID < n
    · simp [h3]
    · simp [h3]
  · simp [h, ne_of_gt h, lt_asymm h]

theorem lwwRejects_true_iff (ex : RecordMeta) (ts : Int) (n : String) :
    lwwRejects ex ts n = true ↔ ¬ lwwLt ex.timestamp ex.nodeID ts n := by
  rw [← lwwRejects_false_iff]
  cases lwwRejects ex ts n <;> simp

theorem lwwLt_asymm {t1 t2 : Int} {n1 n2 : String}
    (h : lwwLt t1 n1 t2 n2) : ¬ lwwLt t2 n2 t1 n1 := by
  rcases h with h | ⟨he, hn⟩
  · rintro (h' | ⟨he', _⟩) <;> omega
  · rintro (h' | ⟨_, hn'⟩)
    · omega
    · exact absurd hn' (not_lt_of_gt hn)

theorem lwwLt_trans {t1 t2 t3 : Int} {n1 n2 n3 : String}
    (h12 : lwwLt t1 n1 t2 n2) (h23 : lwwLt t2 n2 t3 n3) :
    lwwLt t1 n1 t3 n3 := by
  rcases h12 with h | ⟨he, hn⟩ <;> rcases h23 with h' | ⟨he', hn'⟩
  · exact Or.inl (lt_trans h h')
  · exact Or.inl (he' ▸ h)
  · exact Or.inl (he ▸ h')
  · exact Or.inr ⟨he.trans he', lt_trans hn hn'⟩

theorem lwwLt_connex {t1 t2 : Int} {n1 n2 : String}
    (hne : (t1, n1) ≠ (t2, n2)) : lwwLt t1 n1 t2 n2 ∨ lwwLt t2 n2 t1 n1 := by
  rcases lt_trichotomy t1 t2 with h | h | h
  · exact Or.inl (Or.inl h)
  · rcases lt_trichotomy n1 n2 with h' | h' | h'
    · exact Or.inl (Or.inr ⟨h, h'⟩)
    · exact absurd (by rw [h, h']) hne
    · exact Or.inr (Or.inr ⟨h.symm, h'⟩)
  · exact Or.inr (Or.inl h)

end Joyride

namespace Joyride

/-! ## AddWithMeta characterization -/

theorem withEntry_data_self (r : Records) (h ip : String) (ts : Int) (n : String) :
    (r.withEntry h ip ts n).data (goLower h) = some ip := by
  simp [Records.withEntry]

theorem withEntry_meta_self (r : Records) (h ip : String) (ts : Int) (n : String) :
    (r.withEntry h ip ts n).meta (goLower h) = some ⟨ts, n⟩ := by
  simp [Records.withEntry]

theorem withEntry_data_other (r : Records) (h ip : String) (ts : Int) (n : String)
    {k : String} (hk : k ≠ goLower h) :
    (r.withEntry h ip ts n).data k = r.data k := by
  simp [Records.withEntry, hk]

theorem withEntry_meta_other (r : Records) (h ip : String) (ts : Int) (n : String)
    {k : String} (hk : k ≠ goLower h) :
    (r.withEntry h ip ts n).meta k = r.meta k := by
  simp [Records.withEntry, hk]

theorem withEntry_withEntry (r : Records) (h ip1 ip2 : String)
    (t1 t2 : Int) (n1 n2 : String) :
    (r.withEntry h ip1 t1 n1).withEntry h ip2 t2 n2 = r.withEntry h ip2 t2 n2 := by
  ext k
  · by_cases hk : k = goLower h <;> simp [Records.withEntry, hk]
  · by_cases hk : k = goLower h <;> simp [Records.withEntry, hk]

/-- `AddWithMeta` applies when there is no metadata for the key or the
existing metadata loses LWW. -/
theorem addWithMeta_applies (r : Records) (h ip : String) (ts : Int) (n : String)
    (hm : ∀ ex, r.meta (goLower h) = some ex → lwwLt ex.timestamp ex.nodeID ts n) :
    r.addWithMeta h ip ts n = (true, r.withEntry h ip ts n) := by
  unfold Records.addWithMeta
  cases hmeta : r.meta (goLower h) with
  | none => rfl
  | some ex =>
    show (if lwwRejects ex ts n = true then (false, r) else (true, r.withEntry h ip ts n))
        = (true, r.withEntry h ip ts n)
    rw [if_neg]
    rw [Bool.not_eq_true, lwwRejects_false_iff]
    exact hm ex hmeta

/-- `AddWithMeta` is rejected when the existing metadata is at least as
new in the LWW order. -/
theorem addWithMeta_rejected (r : Records) (h ip : String) (ts : Int) (n : String)
    (ex : RecordMeta) (hmeta : r.meta (goLower h) = some ex)
    (hl : ¬ lwwLt ex.timestamp ex.nodeID ts n) :
    r.addWithMeta h ip ts n = (false, r) := by
  unfold Records.addWithMeta
  rw [hmeta]
  show (if lwwRejects ex ts n = true then (false, r) else (true, r.withEntry h ip ts n))
      = (false, r)
  rw [if_pos ((lwwRejects_true_iff ex ts n).2 hl)]

/-- Core two-adds lemma: when `(t1,n1) < (t2,n2)` in the LWW order,
applying both adds in either order equals applying only the second. -/
theorem addWithMeta_seq (s : Records) (h ip1 ip2 : String)
    (t1 t2 : Int) (n1 n2 : String) (hlt : lwwLt t1 n1 t2 n2) :
    ((s.addWithMeta h ip1 t1 n1).2.addWithMeta h ip2 t2 n2).2
        = (s.addWithMeta h ip2 t2 n2).2
    ∧ ((s.addWithMeta h ip2 t2 n2).2.addWithMeta h ip1 t1 n1).2
        = (s.addWithMeta h ip2 t2 n2).2 := by
  cases hmeta : s.meta (goLower h) with
  | none =>
    have h1 : s.addWithMeta h ip1 t1 n1 = (true, s.withEntry h ip1 t1 n1) :=
      addWithMeta_applies s h ip1 t1 n1 (fun ex hex => by rw [hmeta] at hex; cases hex)
    have h2 : s.addWithMeta h ip2 t2 n2 = (true, s.withEntry h ip2 t2 n2) :=
      addWithMeta_applies s h ip2 t2 n2 (fun ex hex => by rw [hmeta] at hex; cases hex)
    constructor
    · rw [h1]
      have h21 : (s.withEntry h ip1 t1 n1).addWithMeta h ip2 t2 n2
          = (true, (s.withEntry h ip1 t1 n1).withEntry h ip2 t2 n2) := by
        refine addWithMeta_applies _ h ip2 t2 n2 (fun ex hex => ?_)
        rw [withEntry_meta_self] at hex
        cases hex
        exact hlt
      rw [h21, h2, withEntry_withEntry]
    · have h12 : (s.withEntry h ip2 t2 n2).addWithMeta h ip1 t1 n1
          = (false, s.withEntry h ip2 t2 n2) := by
        refine addWithMeta_rejected _ h ip1 t1 n1 ⟨t2, n2⟩ (withEntry_meta_self _ _ _ _ _) ?_
        exact lwwLt_asymm hlt
      simp only [h2, h12]
  | some ex =>
    by_cases hex2 : lwwLt ex.timestamp ex.nodeID t2 n2
    · have h2 : s.addWithMeta h ip2 t2 n2 = (true, s.withEntry h ip2 t2 n2) :=
        addWithMeta_applies s h ip2 t2 n2
          (fun ex' hex' => by rw [hmeta] at hex'; cases hex'; exact hex2)
      constructor
      · by_cases hex1 : lwwLt ex.timestamp ex.nodeID t1 n1
        · have h1 : s.addWithMeta h ip1 t1 n1 = (true, s.withEntry h ip1 t1 n1) :=
            addWithMeta_applies s h ip1 t1 n1
              (fun ex' hex' => by rw [hmeta] at hex'; cases hex'; exact hex1)
          rw [h1]
          have h21 : (s.withEntry h ip1 t1 n1).addWithMeta h ip2 t2 n2
              = (true, (s.withEntry h ip1 t1 n1).withEntry h ip2 t2 n2) := by
            refine addWithMeta_applies _ h ip2 t2 n2 (fun ex' hex' => ?_)
            rw [withEntry_meta_self] at hex'
            cases hex'
            exact hlt
          rw [h21, h2, withEntry_withEntry]
        · have h1 : s.addWithMeta h ip1 t1 n1 = (false, s) :=
            addWithMeta_rejected s h ip1 t1 n1 ex hmeta hex1
          rw [h1, h2]
      · have h12 : (s.withEntry h ip2 t2 n2).addWithMeta h ip1 t1 n1
            = (false, s.withEntry h ip2 t2 n2) := by
          refine addWithMeta_rejected _ h ip1 t1 n1 ⟨t2, n2⟩ (withEntry_meta_self _ _ _ _ _) ?_
          exact lwwLt_asymm hlt
        simp only [h2, h12]
    · have hex1 : ¬ lwwLt ex.timestamp ex.nodeID t1 n1 := by
        intro hc
        exact hex2 (lwwLt_trans hc hlt)
      have h1 : s.addWithMeta h ip1 t1 n1 = (false, s) :=
        addWithMeta_rejected s h ip1 t1 n1 ex hmeta hex1
      have h2 : s.addWithMeta h ip2 t2 n2 = (false, s) :=
        addWithMeta_rejected s h ip2 t2 n2 ex hmeta hex2
      simp [h1, h2]

end Joyride

namespace Joyride

/-! ## Claim theorems: record store LWW -/

/-- C1, counterexample: the claim that any two deltas for the same
hostname applied via `ApplyMessage` commute fails for an add/remove
pair.  From the empty store, `add(h,1.2.3.4,t=1,"a")` then
`remove(h,t=2,"b")` leaves `h` absent, while the opposite order leaves
`h` mapped to `1.2.3.4`: the remove of an absent hostname is dropped
without a tombstone. -/
theorem applyMessage_not_commutative :
    ((newRecords.applyMessage ⟨"h.example", "1.2.3.4", .add, 1, "a"⟩).2.applyMessage
        ⟨"h.example", "", .remove, 2, "b"⟩).2.lookup "h.example" = none
    ∧ ((newRecords.applyMessage ⟨"h.example", "", .remove, 2, "b"⟩).2.applyMessage
        ⟨"h.example", "1.2.3.4", .add, 1, "a"⟩).2.lookup "h.example" = some "1.2.3.4" :=
  ⟨by decide, by decide⟩

/-- C1 (amended): for every hostname and every pair of *add* deltas
with distinct `(timestamp, origin_node)`, applying both via
`ApplyMessage` to the same starting store yields the same final store
in either order, and that final store is the one obtained by applying
only the LWW winner — greater timestamp, ties broken by the
lexicographically greater origin node.  (Add/remove pairs need not
commute, since a remove of an absent hostname leaves no tombstone.) -/
theorem applyMessage_add_add_commutes (s : Records) (h ip1 ip2 : String)
    (t1 t2 : Int) (n1 n2 : String) (hne : (t1, n1) ≠ (t2, n2)) :
    ((s.applyMessage ⟨h, ip1, .add, t1, n1⟩).2.applyMessage ⟨h, ip2, .add, t2, n2⟩).2
      = ((s.applyMessage ⟨h, ip2, .add, t2, n2⟩).2.applyMessage ⟨h, ip1, .add, t1, n1⟩).2
    ∧ ((s.applyMessage ⟨h, ip1, .add, t1, n1⟩).2.applyMessage ⟨h, ip2, .add, t2, n2⟩).2
      = (s.applyMessage (if lwwLt t1 n1 t2 n2 then (⟨h, ip2, .add, t2, n2⟩ : RecordMessage)
          else ⟨h, ip1, .add, t1, n1⟩)).2 := by
  have happ : ∀ (ip : String) (t : Int) (n : String) (r : Records),
      r.applyMessage ⟨h, ip, .add, t, n⟩ = r.addWithMeta h ip t n := fun _ _ _ _ => rfl
  rcases lwwLt_connex hne with hlt | hlt
  · have hseq := addWithMeta_seq s h ip1 ip2 t1 t2 n1 n2 hlt
    rw [if_pos hlt]
    simp only [happ]
    exact ⟨hseq.1.trans hseq.2.symm, hseq.1⟩
  · have hseq := addWithMeta_seq s h ip2 ip1 t2 t1 n2 n1 hlt
    rw [if_neg (lwwLt_asymm hlt)]
    simp only [happ]
    exact ⟨hseq.2.trans hseq.1.symm, hseq.2⟩

/-- Witness for the amended C1 at concrete inputs. -/
theorem applyMessage_add_add_commutes_witness :
    ((1 : Int), "node-a") ≠ ((2 : Int), "node-b")
    ∧ (((newRecords.applyMessage ⟨"w.example", "1.1.1.1", .add, 1, "node-a"⟩).2.applyMessage
          ⟨"w.example", "2.2.2.2", .add, 2, "node-b"⟩).2
        = ((newRecords.applyMessage ⟨"w.example", "2.2.2.2", .add, 2, "node-b"⟩).2.applyMessage
          ⟨"w.example", "1.1.1.1", .add, 1, "node-a"⟩).2
      ∧ ((newRecords.applyMessage ⟨"w.example", "1.1.1.1", .add, 1, "node-a"⟩).2.applyMessage
          ⟨"w.example", "2.2.2.2", .add, 2, "node-b"⟩).2
        = (newRecords.applyMessage (if lwwLt 1 "node-a" 2 "node-b"
            then (⟨"w.example", "2.2.2.2", .add, 2, "node-b"⟩ : RecordMessage)
            else ⟨"w.example", "1.1.1.1", .add, 1, "node-a"⟩)).2) :=
  ⟨by decide,
   applyMessage_add_add_commutes newRecords "w.example" "1.1.1.1" "2.2.2.2" 1 2
     "node-a" "node-b" (by decide)⟩

/-- C2: starting from a store with no entry for the hostname (neither
data nor metadata), applying two add deltas with distinct
`(timestamp, origin_node)` in either order leaves `Lookup` returning
the ip of the lexicographically greater `(timestamp, origin_node)`
pair. -/
theorem lookup_after_two_adds (s : Records) (h ip1 ip2 : String)
    (t1 t2 : Int) (n1 n2 : String)
    (hd : s.data (goLower h) = none) (hm : s.meta (goLower h) = none)
    (hne : (t1, n1) ≠ (t2, n2)) :
    ((s.applyMessage ⟨h, ip1, .add, t1, n1⟩).2.applyMessage ⟨h, ip2, .add, t2, n2⟩).2.lookup h
      = some (if lwwLt t1 n1 t2 n2 then ip2 else ip1)
    ∧ ((s.applyMessage ⟨h, ip2, .add, t2, n2⟩).2.applyMessage ⟨h, ip1, .add, t1, n1⟩).2.lookup h
      = some (if lwwLt t1 n1 t2 n2 then ip2 else ip1) := by
  have happ : ∀ (ip : String) (t : Int) (n : String) (r : Records),
      r.applyMessage ⟨h, ip, .add, t, n⟩ = r.addWithMeta h ip t n := fun _ _ _ _ => rfl
  rcases lwwLt_connex hne with hlt | hlt
  · have hseq := addWithMeta_seq s h ip1 ip2 t1 t2 n1 n2 hlt
    have hw : s.addWithMeta h ip2 t2 n2 = (true, s.withEntry h ip2 t2 n2) :=
      addWithMeta_applies s h ip2 t2 n2 (fun ex hex => by rw [hm] at hex; cases hex)
    rw [if_pos hlt]
    simp only [happ]
    rw [hseq.1, hseq.2, hw]
    exact ⟨withEntry_data_self s h ip2 t2 n2, withEntry_data_self s h ip2 t2 n2⟩
  · have hseq := addWithMeta_seq s h ip2 ip1 t2 t1 n2 n1 hlt
    have hw : s.addWithMeta h ip1 t1 n1 = (true, s.withEntry h ip1 t1 n1) :=
      addWithMeta_applies s h ip1 t1 n1 (fun ex hex => by rw [hm] at hex; cases hex)
    rw [if_neg (lwwLt_asymm hlt)]
    simp only [happ]
    rw [hseq.1, hseq.2, hw]
    exact ⟨withEntry_data_self s h ip1 t1 n1, withEntry_data_self s h ip1 t1 n1⟩

/-- Witness for C2 at concrete inputs. -/
theorem lookup_after_two_adds_witness :
    newRecords.data (goLower "c2.example") = none
    ∧ newRecords.meta (goLower "c2.example") = none
    ∧ ((5 : Int), "na") ≠ ((5 : Int), "nb")
    ∧ (((newRecords.applyMessage ⟨"c2.example", "10.0.0.1", .add, 5, "na"⟩).2.applyMessage
          ⟨"c2.example", "10.0.0.2", .add, 5, "nb"⟩).2.lookup "c2.example"
        = some (if lwwLt 5 "na" 5 "nb" then "10.0.0.2" else "10.0.0.1")
      ∧ ((newRecords.applyMessage ⟨"c2.example", "10.0.0.2", .add, 5, "nb"⟩).2.applyMessage
          ⟨"c2.example", "10.0.0.1", .add, 5, "na"⟩).2.lookup "c2.example"
        = some (if lwwLt 5 "na" 5 "nb" then "10.0.0.2" else "10.0.0.1")) :=
  ⟨rfl, rfl, by decide,
   lookup_after_two_adds newRecords "c2.example" "10.0.0.1" "10.0.0.2" 5 5 "na" "nb"
     rfl rfl (by decide)⟩

/-- C10: a remove delta for a hostname absent from the data map is
rejected: `ApplyMessage` returns `false` and the store — both the data
map and the metadata map — is returned unchanged; no tombstone is
retained, whatever the delta timestamp and origin node. -/
theorem applyMessage_remove_absent (s : Records) (h ip : String)
    (t : Int) (n : String) (hd : s.data (goLower h) = none) :
    s.applyMessage ⟨h, ip, .remove, t, n⟩ = (false, s) := by
  show s.removeWithMeta h t n = (false, s)
  unfold Records.removeWithMeta
  rw [hd]

/-- Witness for C10 at concrete inputs. -/
theorem applyMessage_remove_absent_witness :
    newRecords.data (goLower "gone.example") = none
    ∧ newRecords.applyMessage ⟨"gone.example", "", .remove, 5, "n"⟩ = (false, newRecords) :=
  ⟨rfl, applyMessage_remove_absent newRecords "gone.example" "" 5 "n" rfl⟩

/-- C6, counterexample: the plain `Add` does not stamp LWW metadata.
After `Add("app.example.com", "1.2.3.4")` on a fresh store, `GetMeta`
finds no metadata entry at all, so the entry cannot hold any timestamp
or node id. -/
theorem add_stamps_no_meta :
    (newRecords.add "app.example.com" "1.2.3.4").getMeta "app.example.com" = none := by
  decide

/-- C6 (amended): `Add(hostname, ip)` writes `ip` under the lowercased
hostname in the data map and leaves the metadata map entirely
unchanged: the plain add stamps no LWW metadata. -/
theorem add_data_only (s : Records) (h ip : String) :
    (s.add h ip).data (goLower h) = some ip ∧ (s.add h ip).meta = s.meta :=
  ⟨by simp [Records.add], rfl⟩

end Joyride

namespace Joyride

/-! ## Claim theorems: DNS handler -/

/-- C3: for an A query whose normalized name is not in the record store
and whose fall-through predicate does not match, drop mode writes no
DNS message at all and returns success, and nxdomain mode writes one
response with the name-error rcode and returns that code. -/
theorem serveDNS_unknown_policy (dc : DockerCluster) (q : DnsQuery)
    (hq : q.qtype = QType.a)
    (hmiss : dc.records.lookup (trimDot (goLower q.name)) = none)
    (hfall : dc.fallThrough (goLower q.name) = false) :
    (dc.unknownAction = UnknownAction.drop →
        serveDNS dc q = .done [] .success)
    ∧ (dc.unknownAction = UnknownAction.nxdomain →
        serveDNS dc q
          = .done [{ rcode := .nameError, authoritative := false, answers := [] }] .nameError) := by
  have hmiss' : dc.records.data (goLower (trimDot (goLower q.name))) = none := hmiss
  constructor <;> intro hact <;>
    simp [serveDNS, handleUnknown, Records.lookup, hq, hact, hfall, hmiss']

/-- Witness for C3 at concrete inputs (drop mode). -/
theorem serveDNS_unknown_policy_witness :
    (⟨"nowhere.example.", QType.a⟩ : DnsQuery).qtype = QType.a
    ∧ (dropConfig.records.lookup (trimDot (goLower "nowhere.example.")) = none
    ∧ dropConfig.fallThrough (goLower "nowhere.example.") = false
    ∧ ((dropConfig.unknownAction = UnknownAction.drop →
          serveDNS dropConfig ⟨"nowhere.example.", QType.a⟩ = .done [] .success)
      ∧ (dropConfig.unknownAction = UnknownAction.nxdomain →
          serveDNS dropConfig ⟨"nowhere.example.", QType.a⟩
            = .done [{ rcode := .nameError, authoritative := false, answers := [] }] .nameError))) :=
  ⟨rfl, rfl, rfl,
   serveDNS_unknown_policy dropConfig ⟨"nowhere.example.", QType.a⟩ rfl rfl rfl⟩

/-- C4 (failing input): with `"not-an-ip"` stored for the queried name
(an invalid IPv4, as is `"::1"`), the handler does not treat the lookup
as a miss: in drop mode it still writes an authoritative answer message
whose single A record carries a nil address, instead of writing
nothing.  The claimed unknown-action fallback never happens. -/
theorem serveDNS_invalid_ip_not_miss :
    parseIPv4 "not-an-ip" = none
    ∧ parseIPv4 "::1" = none
    ∧ serveDNS
        { records := newRecords.add "test.example.com" "not-an-ip", ttl := 60,
          fallThrough := fun _ => false, hasNext := false, unknownAction := .drop }
        ⟨"test.example.com.", QType.a⟩
      = .done [{ rcode := .success, authoritative := true,
                 answers := [{ name := "test.example.com.", addr := none, ttl := 60 }] }] .success
    ∧ serveDNS
        { records := newRecords.add "test.example.com" "not-an-ip", ttl := 60,
          fallThrough := fun _ => false, hasNext := false, unknownAction := .drop }
        ⟨"test.example.com.", QType.a⟩
      ≠ .done [] .success :=
  ⟨by decide, by decide, by decide, by decide⟩

/-- C5, counterexample: a query of a qtype other than A and AAAA is not
delegated to the next handler when the fall-through predicate does not
match — with unknown action nxdomain and a next handler present, the
handler writes NXDOMAIN itself. -/
theorem serveDNS_other_qtype_not_delegated :
    serveDNS
        { records := newRecords, ttl := 60, fallThrough := fun _ => false,
          hasNext := true, unknownAction := .nxdomain }
        ⟨"example.com.", QType.other⟩
      = .done [{ rcode := .nameError, authoritative := false, answers := [] }] .nameError
    ∧ serveDNS
        { records := newRecords, ttl := 60, fallThrough := fun _ => false,
          hasNext := true, unknownAction := .nxdomain }
        ⟨"example.com.", QType.other⟩
      ≠ HandlerOutcome.delegated :=
  ⟨by decide, by decide⟩

/-- C5 (amended): a query whose qtype is neither A nor AAAA receives
the unknown-name handling regardless of the store contents: when the
fall-through predicate matches the query name it is delegated to the
next handler (server failure if none exists); otherwise the configured
unknown action is applied. -/
theorem serveDNS_other_qtype (dc : DockerCluster) (q : DnsQuery)
    (hq : q.qtype = QType.other) :
    (dc.fallThrough (goLower q.name) = true →
        serveDNS dc q = (if dc.hasNext then HandlerOutcome.delegated
          else HandlerOutcome.failedNoNext))
    ∧ (dc.fallThrough (goLower q.name) = false →
        ((dc.unknownAction = UnknownAction.nxdomain →
            serveDNS dc q
              = .done [{ rcode := .nameError, authoritative := false, answers := [] }] .nameError)
          ∧ (dc.unknownAction = UnknownAction.drop →
            serveDNS dc q = .done [] .success))) := by
  refine ⟨fun hfall => ?_, fun hfall => ⟨fun hact => ?_, fun hact => ?_⟩⟩
  · simp [serveDNS, handleUnknown, hq, hfall]
  · simp [serveDNS, handleUnknown, hq, hfall, hact]
  · simp [serveDNS, handleUnknown, hq, hfall, hact]

/-- Witness for the amended C5 at concrete inputs. -/
theorem serveDNS_other_qtype_witness :
    (⟨"example.com.", QType.other⟩ : DnsQuery).qtype = QType.other
    ∧ ((fallConfig.fallThrough (goLower "example.com.") = true →
          serveDNS fallConfig ⟨"example.com.", QType.other⟩
            = (if fallConfig.hasNext then HandlerOutcome.delegated
              else HandlerOutcome.failedNoNext))
      ∧ (fallConfig.fallThrough (goLower "example.com.") = false →
          ((fallConfig.unknownAction = UnknownAction.nxdomain →
              serveDNS fallConfig ⟨"example.com.", QType.other⟩
                = .done [{ rcode := .nameError, authoritative := false, answers := [] }] .nameError)
            ∧ (fallConfig.unknownAction = UnknownAction.drop →
              serveDNS fallConfig ⟨"example.com.", QType.other⟩ = .done [] .success)))) :=
  ⟨rfl, serveDNS_other_qtype fallConfig ⟨"example.com.", QType.other⟩ rfl⟩

end Joyride

namespace Joyride

/-! ## Label extraction lemmas and claim C8 -/

theorem hostTokenStep_mem (acc : List String) (p x : String) :
    x ∈ hostTokenStep acc p ↔
      x ∈ acc ∨ (goTrim p ≠ "" ∧ goTrim p ∉ acc ∧ x = goTrim p) := by
  unfold hostTokenStep
  by_cases hc : goTrim p ≠ "" ∧ goTrim p ∉ acc
  · rw [if_pos hc]
    simp only [List.mem_append, List.mem_singleton]
    constructor
    · rintro (hx | rfl)
      · exact Or.inl hx
      · exact Or.inr ⟨hc.1, hc.2, rfl⟩
    · rintro (hx | ⟨_, _, rfl⟩)
      · exact Or.inl hx
      · exact Or.inr rfl
  · rw [if_neg hc]
    constructor
    · exact Or.inl
    · rintro (hx | ⟨hne, hnin, rfl⟩)
      · exact hx
      · exact absurd ⟨hne, hnin⟩ hc

theorem innerFold_mem (parts : List String) (acc : List String) (x : String) :
    x ∈ parts.foldl hostTokenStep acc ↔
      x ∈ acc ∨ (x ≠ "" ∧ x ∈ parts.map goTrim) := by
  induction parts generalizing acc with
  | nil => simp
  | cons p ps ih =>
    rw [List.foldl_cons, ih, hostTokenStep_mem]
    simp only [List.map_cons, List.mem_cons]
    constructor
    · rintro ((hx | ⟨hne, _, rfl⟩) | ⟨hne, hmem⟩)
      · exact Or.inl hx
      · exact Or.inr ⟨hne, Or.inl rfl⟩
      · exact Or.inr ⟨hne, Or.inr hmem⟩
    · rintro (hx | ⟨hne, rfl | hmem⟩)
      · exact Or.inl (Or.inl hx)
      · by_cases hin : goTrim p ∈ acc
        · exact Or.inl (Or.inl hin)
        · exact Or.inl (Or.inr ⟨hne, hin, rfl⟩)
      · exact Or.inr ⟨hne, hmem⟩

theorem innerFold_nodup (parts : List String) (acc : List String)
    (h : acc.Nodup) : (parts.foldl hostTokenStep acc).Nodup := by
  induction parts generalizing acc with
  | nil => exact h
  | cons p ps ih =>
    rw [List.foldl_cons]
    apply ih
    unfold hostTokenStep
    by_cases hc : goTrim p ≠ "" ∧ goTrim p ∉ acc
    · rw [if_pos hc]
      rw [List.nodup_append]
      refine ⟨h, List.nodup_singleton _, ?_⟩
      intro a ha hb
      rw [List.mem_singleton] at hb
      exact hc.2 (hb ▸ ha)
    · rw [if_neg hc]
      exact h

theorem labelStep_mem (labels : String → Option String)
    (acc : List String) (l x : String) :
    x ∈ labelStep labels acc l ↔
      x ∈ acc ∨ (x ≠ "" ∧ ∃ v, labels l = some v ∧ x ∈ (splitOnChar ',' v).map goTrim) := by
  unfold labelStep
  cases hl : labels l with
  | none => simp
  | some v =>
    rw [innerFold_mem]
    simp

theorem labelStep_nodup (labels : String → Option String)
    (acc : List String) (l : String) (h : acc.Nodup) :
    (labelStep labels acc l).Nodup := by
  unfold labelStep
  cases labels l with
  | none => exact h
  | some v => exact innerFold_nodup _ _ h

theorem outerFold_mem (cfg : List String) (labels : String → Option String)
    (acc : List String) (x : String) :
    x ∈ cfg.foldl (labelStep labels) acc ↔
      x ∈ acc ∨ (x ≠ "" ∧ ∃ l, l ∈ cfg ∧ ∃ v, labels l = some v
        ∧ x ∈ (splitOnChar ',' v).map goTrim) := by
  induction cfg generalizing acc with
  | nil => simp
  | cons l ls ih =>
    rw [List.foldl_cons, ih, labelStep_mem]
    constructor
    · rintro ((hx | ⟨hne, hv⟩) | ⟨hne, l', hl', hv⟩)
      · exact Or.inl hx
      · exact Or.inr ⟨hne, l, List.mem_cons_self l ls, hv⟩
      · exact Or.inr ⟨hne, l', List.mem_cons_of_mem l hl', hv⟩
    · rintro (hx | ⟨hne, l', hl', hv⟩)
      · exact Or.inl (Or.inl hx)
      · rcases List.mem_cons.1 hl' with rfl | hl''
        · exact Or.inl (Or.inr ⟨hne, hv⟩)
        · exact Or.inr ⟨hne, l', hl'', hv⟩

theorem outerFold_nodup (cfg : List String) (labels : String → Option String)
    (acc : List String) (h : acc.Nodup) :
    (cfg.foldl (labelStep labels) acc).Nodup := by
  induction cfg generalizing acc with
  | nil => exact h
  | cons l ls ih =>
    rw [List.foldl_cons]
    exact ih _ (labelStep_nodup labels acc l h)

/-- C8: for every configured label list and every container label map,
the extracted hostname list is duplicate-free and contains exactly the
non-blank comma-separated, whitespace-trimmed tokens of the values of
the configured labels the container carries — the union over labels,
deduplicated. -/
theorem extractHostnames_spec (cfg : List String) (labels : String → Option String) :
    (extractHostnames cfg labels).Nodup
    ∧ ∀ x : String, x ∈ extractHostnames cfg labels ↔
        (x ≠ "" ∧ ∃ l, l ∈ cfg ∧ ∃ v, labels l = some v
          ∧ x ∈ (splitOnChar ',' v).map goTrim) := by
  constructor
  · exact outerFold_nodup cfg labels [] List.nodup_nil
  · intro x
    rw [extractHostnames, outerFold_mem]
    simp

/-- Witness for C8: the spec's example container with
`label1=x.example` and `label2=x.example,y.example` yields exactly
`x.example` and `y.example`, and the general theorem instantiates. -/
theorem extractHostnames_spec_witness :
    extractHostnames ["label1", "label2"] exampleLabels = ["x.example", "y.example"]
    ∧ ((extractHostnames ["label1", "label2"] exampleLabels).Nodup
      ∧ ∀ x : String, x ∈ extractHostnames ["label1", "label2"] exampleLabels ↔
          (x ≠ "" ∧ ∃ l, l ∈ ["label1", "label2"] ∧ ∃ v, exampleLabels l = some v
            ∧ x ∈ (splitOnChar ',' v).map goTrim)) :=
  ⟨by decide, extractHostnames_spec ["label1", "label2"] exampleLabels⟩

end Joyride

namespace Joyride

/-! ## Merge (anti-entropy) lemmas and claim C7 -/

theorem addWithMeta_cases (r : Records) (h ip : String) (ts : Int) (n : String) :
    r.addWithMeta h ip ts n = (false, r)
    ∨ r.addWithMeta h ip ts n = (true, r.withEntry h ip ts n) := by
  unfold Records.addWithMeta
  cases r.meta (goLower h) with
  | none => exact Or.inr rfl
  | some ex =>
    by_cases hrej : lwwRejects ex ts n = true
    · exact Or.inl (by simp [hrej])
    · exact Or.inr (by simp [hrej])

theorem addWithMeta_frame (r : Records) (h ip : String) (ts : Int) (n : String)
    {k : String} (hk : k ≠ goLower h) :
    (r.addWithMeta h ip ts n).2.data k = r.data k
    ∧ (r.addWithMeta h ip ts n).2.meta k = r.meta k := by
  rcases addWithMeta_cases r h ip ts n with hc | hc <;> rw [hc]
  · exact ⟨rfl, rfl⟩
  · exact ⟨withEntry_data_other r h ip ts n hk, withEntry_meta_other r h ip ts n hk⟩

theorem merge_frame : ∀ (entries : List (String × RecordEntry)) (r : Records) (k : String),
    (∀ p ∈ entries, goLower p.1 ≠ k) →
    (mergeRemoteState r entries).data k = r.data k
    ∧ (mergeRemoteState r entries).meta k = r.meta k := by
  intro entries
  induction entries with
  | nil => exact fun r k _ => ⟨rfl, rfl⟩
  | cons q rest ih =>
    intro r k hk
    have hq : k ≠ goLower q.1 := (hk q (List.mem_cons_self q rest)).symm
    have hstep := addWithMeta_frame r q.1 q.2.ip q.2.timestamp q.2.nodeID hq
    have hrest := ih ((r.applyMessage (entryMessage q)).2) k
      (fun p hp => hk p (List.mem_cons_of_mem q hp))
    exact ⟨hrest.1.trans hstep.1, hrest.2.trans hstep.2⟩

/-- The per-entry effect of one snapshot merge, phrased against the
starting store's metadata for that entry's (already lowercase) key:
the entry is rejected (store unchanged at that key) when an existing
metadata entry is at least as new, and applied (key bound to the
snapshot ip and metadata) when every existing metadata entry loses. -/
theorem merge_entry : ∀ (entries : List (String × RecordEntry)) (r : Records),
    (entries.map Prod.fst).Nodup →
    (∀ p ∈ entries, goLower p.1 = p.1) →
    ∀ p ∈ entries,
      (∀ ex, r.meta p.1 = some ex →
        ¬ lwwLt ex.timestamp ex.nodeID p.2.timestamp p.2.nodeID →
        (mergeRemoteState r entries).data p.1 = r.data p.1
        ∧ (mergeRemoteState r entries).meta p.1 = r.meta p.1)
      ∧ ((∀ ex, r.meta p.1 = some ex →
            lwwLt ex.timestamp ex.nodeID p.2.timestamp p.2.nodeID) →
        (mergeRemoteState r entries).data p.1 = some p.2.ip
        ∧ (mergeRemoteState r entries).meta p.1
            = some ⟨p.2.timestamp, p.2.nodeID⟩) := by
  intro entries
  induction entries with
  | nil => intro r _ _ p hp; cases hp
  | cons q rest ih =>
    intro r hnd hlow p hp
    have hqnot : q.1 ∉ rest.map Prod.fst := (List.nodup_cons.1 hnd).1
    have hndr : (rest.map Prod.fst).Nodup := (List.nodup_cons.1 hnd).2
    have hlowr : ∀ p' ∈ rest, goLower p'.1 = p'.1 :=
      fun p' hp' => hlow p' (List.mem_cons_of_mem q hp')
    have hqlow : goLower q.1 = q.1 := hlow q (List.mem_cons_self q rest)
    rcases List.mem_cons.1 hp with hpq | hp'
    · subst hpq
      have hframe := merge_frame rest ((r.applyMessage (entryMessage p)).2) p.1
        (fun p' hp' => by
          rw [hlowr p' hp']
          intro hEq
          exact hqnot (hEq ▸ List.mem_map_of_mem Prod.fst hp'))
      constructor
      · intro ex hmeta hwin
        have happly : r.applyMessage (entryMessage p) = (false, r) := by
          show r.addWithMeta p.1 p.2.ip p.2.timestamp p.2.nodeID = (false, r)
          refine addWithMeta_rejected r p.1 p.2.ip p.2.timestamp p.2.nodeID ex ?_ hwin
          rw [hqlow]
          exact hmeta
        have hdata : (r.applyMessage (entryMessage p)).2.data p.1 = r.data p.1 := by
          rw [happly]
        have hmeta2 : (r.applyMessage (entryMessage p)).2.meta p.1 = r.meta p.1 := by
          rw [happly]
        exact ⟨hframe.1.trans hdata, hframe.2.trans hmeta2⟩
      · intro hwins
        have happly : r.applyMessage (entryMessage p)
            = (true, r.withEntry p.1 p.2.ip p.2.timestamp p.2.nodeID) := by
          show r.addWithMeta p.1 p.2.ip p.2.timestamp p.2.nodeID = _
          apply addWithMeta_applies
          intro ex hex
          rw [hqlow] at hex
          exact hwins ex hex
        have hdata : (r.applyMessage (entryMessage p)).2.data p.1 = some p.2.ip := by
          rw [happly]
          have hself := withEntry_data_self r p.1 p.2.ip p.2.timestamp p.2.nodeID
          rwa [hqlow] at hself
        have hmeta2 : (r.applyMessage (entryMessage p)).2.meta p.1
            = some ⟨p.2.timestamp, p.2.nodeID⟩ := by
          rw [happly]
          have hself := withEntry_meta_self r p.1 p.2.ip p.2.timestamp p.2.nodeID
          rwa [hqlow] at hself
        exact ⟨hframe.1.trans hdata, hframe.2.trans hmeta2⟩
    · have hq1 : q.1 ≠ p.1 := by
        intro hEq
        exact hqnot (hEq ▸ List.mem_map_of_mem Prod.fst hp')
      have hstep := addWithMeta_frame r q.1 q.2.ip q.2.timestamp q.2.nodeID
        (k := p.1) (by rw [hqlow]; exact hq1.symm)
      have hdataEq : (r.applyMessage (entryMessage q)).2.data p.1 = r.data p.1 := hstep.1
      have hmetaEq : (r.applyMessage (entryMessage q)).2.meta p.1 = r.meta p.1 := hstep.2
      have ihp := ih ((r.applyMessage (entryMessage q)).2) hndr hlowr p hp'
      constructor
      · intro ex hmeta hwin
        have hres := ihp.1 ex (hmetaEq.trans hmeta) hwin
        exact ⟨hres.1.trans hdataEq, hres.2.trans hmetaEq⟩
      · intro hwins
        exact ihp.2 (fun ex hex => hwins ex (hmetaEq.symm.trans hex))

/-- C7, counterexample: a snapshot hostname absent locally need not be
added.  After `AddWithMeta(h, t=10)` followed by a plain `Remove(h)`,
the data map no longer has `h` (it is absent locally) but the metadata
entry `(10, "n")` survives; merging a snapshot carrying `h` with the
older stamp `(5, "m")` is rejected by LWW and `h` stays absent. -/
theorem mergeRemoteState_absent_not_added :
    (((newRecords.addWithMeta "h.example" "1.1.1.1" 10 "n").2).remove
        "h.example").lookup "h.example" = none
    ∧ (mergeRemoteState (((newRecords.addWithMeta "h.example" "1.1.1.1" 10 "n").2).remove
          "h.example")
        [("h.example", { ip := "2.2.2.2", timestamp := 5, nodeID := "m" })]).lookup
        "h.example" = none :=
  ⟨by decide, by decide⟩

/-- C7 (amended): merging a full-state snapshot (lowercase, duplicate-
free hostnames, as produced by a peer's store) never fails and applies
each entry as an LWW-guarded add, touching only the listed hostnames:
hostnames not listed keep both their data and metadata; a listed entry
beats the local metadata for its hostname (absent metadata, or
lexicographically smaller `(timestamp, origin_node)`) exactly when the
hostname ends up bound to the snapshot's ip and metadata, and otherwise
— including when a metadata entry left over from a plain `Remove`
outranks it, even though the hostname is absent from the data map — the
hostname's data and metadata are left exactly as they were. -/
theorem mergeRemoteState_lww (r : Records) (entries : List (String × RecordEntry))
    (hnd : (entries.map Prod.fst).Nodup)
    (hlow : ∀ p ∈ entries, goLower p.1 = p.1) :
    (∀ k : String, (∀ p ∈ entries, p.1 ≠ k) →
        (mergeRemoteState r entries).data k = r.data k
        ∧ (mergeRemoteState r entries).meta k = r.meta k)
    ∧ (∀ p ∈ entries,
        (∀ ex, r.meta p.1 = some ex →
          ¬ lwwLt ex.timestamp ex.nodeID p.2.timestamp p.2.nodeID →
          (mergeRemoteState r entries).data p.1 = r.data p.1
          ∧ (mergeRemoteState r entries).meta p.1 = r.meta p.1)
        ∧ ((∀ ex, r.meta p.1 = some ex →
              lwwLt ex.timestamp ex.nodeID p.2.timestamp p.2.nodeID) →
          (mergeRemoteState r entries).data p.1 = some p.2.ip
          ∧ (mergeRemoteState r entries).meta p.1
              = some ⟨p.2.timestamp, p.2.nodeID⟩)) :=
  ⟨fun k hk => merge_frame entries r k
      (fun p hp => by rw [hlow p hp]; exact hk p hp),
   merge_entry entries r hnd hlow⟩

/-- Witness for the amended C7: on the concrete store and snapshot the
hypotheses hold and the frame conjunct applies to an unlisted hostname. -/
theorem mergeRemoteState_lww_witness :
    (mergeWitnessEntries.map Prod.fst).Nodup
    ∧ (∀ p ∈ mergeWitnessEntries, goLower p.1 = p.1)
    ∧ ((mergeRemoteState mergeWitnessStore mergeWitnessEntries).data "other.example"
          = mergeWitnessStore.data "other.example"
      ∧ (mergeRemoteState mergeWitnessStore mergeWitnessEntries).meta "other.example"
          = mergeWitnessStore.meta "other.example") :=
  ⟨by decide, by decide,
   (mergeRemoteState_lww mergeWitnessStore mergeWitnessEntries (by decide) (by decide)).1
     "other.example" (by decide)⟩

end Joyride
